import Mathlib

/-!
Verification development for the AppFlowy-Web collaborative document layer.

The development shallowly embeds two source components:

* the Tree Translator (`translateYEvents` / `applyBlocksYEvent` /
  `handleNewBlock` / `handleDeleteNode`), which patches the Slate editable
  tree from Yjs block-map change events, and
* the Structural Command Layer (`CustomEditor.deleteBlockBackward`,
  `CustomEditor.tabEvent`, `CustomEditor.deleteBlock`), which implements
  compound editing verbs.

Slate's editable tree is modelled as a forest of nodes; Slate's
`insert_node` / `remove_node` operation semantics (including JavaScript
`splice` index handling) are reproduced, as is the pre-order document
traversal used by `editor.nodes`.  JSON (de)serialization of the block
`data` field is abstracted: the parsed attribute map is stored directly.
-/

namespace AppFlowyWeb

/-- A Slate node: either a text leaf (a text run) or an element.  Elements
carry the optional originating block id, the node type tag, the optional
text id (for `type = "text"` nodes) and the block data attribute map. -/
inductive SlateNode where
  | text (content : String)
  | element (blockId : Option String) (ty : String) (textId : Option String)
      (data : List (String × String)) (children : List SlateNode)
deriving Repr

/-- The children list of a node (a text leaf has none). -/
def nodeChildren : SlateNode → List SlateNode
  | .text _ => []
  | .element _ _ _ _ cs => cs

/-- The check `Element.isElement(n) && n.type === 'text'` used for
`parentHasTextNode` in `handleNewBlock`. -/
def isTextTypeNode : SlateNode → Bool
  | .element _ ty _ _ _ => ty == "text"
  | .text _ => false

/-- Whether a node is a text leaf (a text run). -/
def isTextLeaf : SlateNode → Bool
  | .text _ => true
  | .element _ _ _ _ _ => false

/-- The match predicate `Element.isElement(n) && n.blockId === id` used by
`editor.nodes` lookups in the translator. -/
def isBlockElem (id : String) : SlateNode → Bool
  | .element (some b) _ _ _ _ => b == id
  | _ => false

/-- Resolve a (possibly invalid) Slate path in a forest.  Mirrors
`Node.get`: every path component must index an existing child of an
element (JavaScript array indexing, so a negative or out-of-range index is
`undefined` and the lookup throws, modelled as `none`). -/
def getInForest : List Int → List SlateNode → Option SlateNode
  | [], _ => none
  | [i], ns => if 0 ≤ i then ns[i.toNat]? else none
  | i :: j :: q, ns =>
    if 0 ≤ i then
      (ns[i.toNat]?).bind (fun n =>
        match n with
        | .element _ _ _ _ cs => getInForest (j :: q) cs
        | .text _ => none)
    else none

/-- JavaScript `Array.prototype.splice` start-index normalization: a
negative index counts from the end, clamped to `0`. -/
def spliceIdx (i : Int) (len : Nat) : Nat :=
  if i < 0 then (max ((len : Int) + i) 0).toNat else i.toNat

/-- Slate `insert_node` semantics: ancestors of the target path must
resolve (else the operation throws, modelled as `none`); the final index
throws only when it exceeds the parent's children count, and is otherwise
handed to `splice`. -/
def insertInForest : List Int → SlateNode → List SlateNode → Option (List SlateNode)
  | [], _, _ => none
  | [i], x, ns =>
    if i > (ns.length : Int) then none
    else some (ns.insertIdx (spliceIdx i ns.length) x)
  | i :: j :: q, x, ns =>
    if 0 ≤ i then
      (ns[i.toNat]?).bind (fun n =>
        match n with
        | .element b t tid d cs =>
          (insertInForest (j :: q) x cs).map
            (fun cs2 => ns.set i.toNat (.element b t tid d cs2))
        | .text _ => none)
    else none

/-- Slate `remove_node` semantics: ancestors must resolve; the final index
is handed to `splice(index, 1)` (an out-of-range index silently removes
nothing). -/
def removeInForest : List Int → List SlateNode → Option (List SlateNode)
  | [], _ => none
  | [i], ns =>
    if i ≥ (ns.length : Int) then some ns
    else some (ns.eraseIdx (spliceIdx i ns.length))
  | i :: j :: q, ns =>
    if 0 ≤ i then
      (ns[i.toNat]?).bind (fun n =>
        match n with
        | .element b t tid d cs =>
          (removeInForest (j :: q) cs).map
            (fun cs2 => ns.set i.toNat (.element b t tid d cs2))
        | .text _ => none)
    else none

/-- Increment the leading path component (used to shift a sibling path one
position to the right while searching a forest). -/
def bumpHead : List Int → List Int
  | [] => []
  | i :: p => (i + 1) :: p

mutual

/-- First entry matching `pred` inside a node, in Slate's pre-order
document traversal (the node itself before its children), together with
the path of the match relative to the node. -/
def findInNode (pred : SlateNode → Bool) (n : SlateNode) :
    Option (SlateNode × List Int) :=
  if pred n then some (n, [])
  else
    match n with
    | .text _ => none
    | .element _ _ _ _ cs => findInForest pred cs

/-- First entry matching `pred` in a forest, in pre-order, with its path. -/
def findInForest (pred : SlateNode → Bool) : List SlateNode → Option (SlateNode × List Int)
  | [] => none
  | c :: rest =>
    match findInNode pred c with
    | some (m, q) => some (m, 0 :: q)
    | none =>
      match findInForest pred rest with
      | some (m, p) => some (m, bumpHead p)
      | none => none

end

/-! ## Shared Tree Store (Yjs document) model

A Yjs block record stores its type, parent id, the id of its children
array in `meta.children_map`, the optional external text id, and the data
attribute map (the JSON string is abstracted to the parsed map). -/

/-- A block record of the shared document (`YBlock`). -/
structure YBlock where
  ty : String
  parent : String
  childrenId : String
  externalId : Option String
  data : List (String × String)
deriving DecidableEq, Repr

/-- The shared document root: page id, the block map
(`document.blocks`), the children map (`document.meta.children_map`,
children-array id → ordered child block ids) and the text map
(`document.meta.text_map`, text id → delta insert contents). -/
structure SharedRoot where
  pageId : String
  blocks : List (String × YBlock)
  childrenMap : List (String × List String)
  textMap : List (String × List String)
deriving DecidableEq, Repr

/-- Port of `getBlock(id, sharedRoot)`: look the block up in the block map. -/
def getBlock (id : String) (root : SharedRoot) : Option YBlock :=
  root.blocks.lookup id

/-- Port of `getChildrenArray(childrenId, sharedRoot)`: look the ordered child-id
array up in the children map. -/
def getChildrenArray (childrenId : String) (root : SharedRoot) : Option (List String) :=
  root.childrenMap.lookup childrenId

/-- Port of `getText(textId, sharedRoot)`: look the text entity up in the text
map; an absent (`undefined`) text id yields nothing. -/
def getText (textId : Option String) (root : SharedRoot) : Option (List String) :=
  textId.bind (fun t => root.textMap.lookup t)

/-- Modelled from the spec: `blockToSlateNode` (the converter from a block
record to an editable node, whose source file is not in the repository
snapshot).  Per the spec's data model, the editable node mirrors the block
1:1 and is tagged with the originating block id; children are attached by
the caller. -/
def blockToSlateNode (id : String) (block : YBlock) : SlateNode :=
  .element (some id) block.ty none block.data []

/-- Modelled from the spec: `deltaInsertToSlateNode` (conversion of one
rich-text delta insert into editable text nodes, whose source file is not
in the repository snapshot).  Per the spec, each run becomes a text-run
node. -/
def deltaInsertToSlateNode (content : String) : List SlateNode :=
  [.text content]

/-- Lines 232–253 of the translator: materialize the text child of a new
block.  When the Text entity exists, its delta is converted run by run;
an empty result is replaced by a single empty text run. -/
def buildTextNode (root : SharedRoot) (textId : Option String) : Option SlateNode :=
  match getText textId root with
  | none => none
  | some delta =>
    let slateDelta := delta.flatMap deltaInsertToSlateNode
    let slateDelta := if slateDelta.isEmpty then [SlateNode.text ""] else slateDelta
    some (.element none "text" textId [] slateDelta)

/-- Port of `parentChildren.toArray().findIndex((child) => child === key)`:
the ordinal of `key` in the parent's shared-tree child order, `-1` when
absent (JavaScript `findIndex`). -/
def blockIndexIn (parentChildren : List String) (key : String) : Int :=
  match parentChildren.findIdx? (· == key) with
  | some i => (i : Int)
  | none => -1

/-- The child insertion index computed by `handleNewBlock` when the parent
is present in the editable tree: the shared ordinal plus one when the
parent's first child is a `text` element (or the parent has no children),
clamped to the parent's current children count. -/
def nestedInsertChildIdx (parentNode : SlateNode) (index : Int) : Int :=
  let siblings := nodeChildren parentNode
  let childrenLength := siblings.length
  let parentHasTextNode :=
    match siblings with
    | [] => true
    | s :: _ => isTextTypeNode s
  min (index + (if parentHasTextNode then 1 else 0)) (childrenLength : Int)

/-- Whether a children list literally starts with a `text`-typed element
node (the claim-side reading of "the parent node's first child is a text
node": an empty children list has no first child). -/
def firstChildIsTextRun (cs : List SlateNode) : Bool :=
  match cs with
  | [] => false
  | s :: _ => isTextTypeNode s

/-- A same-batch cache of the editable-tree paths of blocks inserted
earlier in the batch, keyed by block id (`keyPath`). -/
abbrev KeyPath : Type := List (String × List Int)

/-- Assignment `keyPath[key] = path` (later assignments shadow earlier ones). -/
def KeyPath.store (kp : KeyPath) (key : String) (path : List Int) : KeyPath :=
  (key, path) :: kp

/-- Lookup of `keyPath[key]`. -/
def KeyPath.lookup (kp : KeyPath) (key : String) : Option (List Int) :=
  List.lookup key kp

/-- Lines 255–293 of the translator: the insertion path for a new block.
Root-level blocks go at `[index]`; nested blocks go under the parent's
editable-tree entry at `nestedInsertChildIdx`, or — when the parent is not
yet present but was cached earlier in the batch — at the cached parent
path extended with `index + 1`; a parent neither present nor cached is a
logged skip (`none`). -/
def computeInsertPath (root : SharedRoot) (editor : List SlateNode) (keyPath : KeyPath)
    (parentId : String) (index : Int) : Option (List Int) :=
  if parentId ≠ root.pageId then
    match findInForest (isBlockElem parentId) editor with
    | none =>
      match keyPath.lookup parentId with
      | some cached => some (cached ++ [index + 1])
      | none => none
    | some (parentNode, parentPath) =>
      some (parentPath ++ [nestedInsertChildIdx parentNode index])
  else some [index]

/-- Port of `handleNewBlock` (translator lines 187–317): materialize one added
block.  A missing block or missing parent block is a logged skip; a
missing children array makes the source throw (`.error`); a failed
editable-tree insert is caught and logged; a successful insert caches the
new block's path in `keyPath`. -/
def handleNewBlock (root : SharedRoot) (editor : List SlateNode) (key : String)
    (keyPath : KeyPath) : Except Unit (List SlateNode × KeyPath) :=
  match getBlock key root with
  | none => .ok (editor, keyPath)
  | some block =>
    let parentId := block.parent
    match getBlock parentId root with
    | none => .ok (editor, keyPath)
    | some parent =>
      match getChildrenArray parent.childrenId root with
      | none => .error ()
      | some parentChildren =>
        let index := blockIndexIn parentChildren key
        let slateNode := blockToSlateNode key block
        let textNode := buildTextNode root block.externalId
        match computeInsertPath root editor keyPath parentId index with
        | none => .ok (editor, keyPath)
        | some path =>
          let node : SlateNode :=
            match slateNode, textNode with
            | .element b t tid d _, some tn => .element b t tid d [tn]
            | .element b t tid d _, none => .element b t tid d []
            | n, _ => n
          match insertInForest path node editor with
          | some editor2 => .ok (editor2, keyPath.store key path)
          | none => .ok (editor, keyPath)

/-- Port of `handleDeleteNode` (translator lines 326–360): remove the editable
node carrying the deleted block id; an absent id is a logged skip. -/
def handleDeleteNode (editor : List SlateNode) (key : String) : List SlateNode :=
  match findInForest (isBlockElem key) editor with
  | none => editor
  | some (_, path) =>
    match removeInForest path editor with
    | some editor2 => editor2
    | none => editor

/-- The comparator of `updates.sort` in `applyBlocksYEvent`, as the
boolean "may come first" relation of a stable sort: `a` may precede `b`
unless `a` is not a delete and `b` is.  (`Array.prototype.sort` is stable,
as is `List.mergeSort`.) -/
def updLe (a b : String × String) : Bool :=
  a.2 == "delete" || b.2 != "delete"

/-- Port of `updates.sort(...)`: deletions first, otherwise the exposed order. -/
def sortUpdates (updates : List (String × String)) : List (String × String) :=
  updates.mergeSort updLe

/-- Lines 141–150 of `applyBlocksYEvent`: collect `(key, action)` pairs
from the changed keys, skipping keys without a change record. -/
def buildUpdates (keysChanged : List String) (keys : List (String × String)) :
    List (String × String) :=
  keysChanged.filterMap (fun k => (keys.lookup k).map (fun action => (k, action)))

/-- One step of the `updates.forEach` dispatch in `applyBlocksYEvent`:
`add` runs `handleNewBlock`, `delete` runs `handleDeleteNode`, `update` is
an unimplemented stub, anything else falls through. -/
def processUpdate (root : SharedRoot) (st : List SlateNode × KeyPath)
    (u : String × String) : Except Unit (List SlateNode × KeyPath) :=
  if u.2 == "add" then handleNewBlock root st.1 u.1 st.2
  else if u.2 == "delete" then .ok (handleDeleteNode st.1 u.1, st.2)
  else .ok st

/-- Port of `applyBlocksYEvent` (translator lines 124–177): build the update list
from the changed keys, sort deletions first, then process each update in
order, threading the editable tree and the same-batch path cache. -/
def applyBlocksYEvent (root : SharedRoot) (editor : List SlateNode)
    (keysChanged : List String) (keys : List (String × String)) :
    Except Unit (List SlateNode) :=
  ((sortUpdates (buildUpdates keysChanged keys)).foldlM (processUpdate root)
    (editor, ([] : KeyPath))).map (·.1)

/-! ## Structural Command Layer model -/

/-- The block type tags relevant to the structural commands. -/
inductive BlockType where
  | paragraph
  | heading
  | quote
  | todoList
  | bulletedList
  | numberedList
  | toggleList
  | page
  | grid
  | board
  | calendar
  | other
deriving DecidableEq, Repr

/-- Modelled from the spec: `LIST_BLOCK_TYPES` (its source file is not in
the repository snapshot) — the list-item block kind variants of the data
model (todo, bulleted, numbered and toggle list items). -/
def LIST_BLOCK_TYPES : List BlockType :=
  [.bulletedList, .numberedList, .todoList, .toggleList]

/-- A Slate point: an editable-tree path plus a character offset. -/
structure SlatePoint where
  path : List Int
  offset : Nat
deriving DecidableEq, Repr

/-- A Slate range: anchor and focus points. -/
structure SlateRange where
  anchor : SlatePoint
  focus : SlatePoint
deriving DecidableEq, Repr

/-- Port of `Range.isCollapsed`: anchor and focus coincide. -/
def rangeIsCollapsed (r : SlateRange) : Bool :=
  r.anchor == r.focus

/-- The shared-tree facts `deleteBlockBackward` reads about a block. -/
structure SharedBlockInfo where
  ty : BlockType
deriving DecidableEq, Repr

/-- The environment of one `CustomEditor.deleteBlockBackward` call: the
resolved selection, the result of `getBlockEntry` at the anchor point
(block id of the entry's node plus its editable-tree path), the shared
root lookups `getBlock` / `getParent`, and the boolean outcome of
`handleLiftBlockOnBackspaceAndEnterWithTxn` (the lift helper reports
whether it handled the operation; its source file is not in the
repository snapshot, so it enters the model as this oracle). -/
structure BackspaceCtx where
  newAt : SlateRange
  blockEntry : Option (String × List Int)
  getBlockIn : String → Option SharedBlockInfo
  getParentIn : String → Option SharedBlockInfo
  liftHandled : Bool

/-- What one `deleteBlockBackward` call did. -/
inductive BackspaceAction where
  | nonParagraphHandled
  | lifted
  | merged
  | rangeRemoved
  | warnNoBlockEntry
  | warnBlockGone
deriving DecidableEq, Repr

/-- Whether an observed action mutates the shared tree or the editable
tree (the two warn outcomes return before any transaction or transform). -/
def BackspaceAction.isMutation : BackspaceAction → Bool
  | .warnNoBlockEntry => false
  | .warnBlockGone => false
  | _ => true

/-- Port of `CustomEditor.deleteBlockBackward` (command layer lines 152–204),
reduced to the action it takes.  In the collapsed case: missing block
entry or a block id no longer in the shared root warn and return; the
quote-parented non-paragraph list block converts toward paragraph; a
nested block for which the lift helper reports success lifts; any other
non-paragraph block converts toward paragraph; otherwise the block merges
backward.  A non-collapsed range collapses and removes the range. -/
def deleteBlockBackward (ctx : BackspaceCtx) : BackspaceAction :=
  if rangeIsCollapsed ctx.newAt then
    match ctx.blockEntry with
    | none => .warnNoBlockEntry
    | some (blockId, path) =>
      match ctx.getBlockIn blockId with
      | none => .warnBlockGone
      | some block =>
        let blockType := block.ty
        let parent := ctx.getParentIn blockId
        if blockType != BlockType.paragraph
            && (match parent with
                | some p => p.ty == BlockType.quote
                | none => false)
            && LIST_BLOCK_TYPES.contains blockType then
          .nonParagraphHandled
        else if path.length > 1 && ctx.liftHandled then
          .lifted
        else if blockType != BlockType.paragraph then
          .nonParagraphHandled
        else
          .merged
  else .rangeRemoved

/-- First-match evaluation of an ordered guard list with a default — the
claimed shape of the backspace decision: each guard, if matched, fully
handles the operation. -/
def firstMatch (cases : List (Bool × BackspaceAction)) (dflt : BackspaceAction) :
    BackspaceAction :=
  match cases with
  | [] => dflt
  | (c, a) :: rest => if c then a else firstMatch rest dflt

/-- Guard (1) of the claim: non-paragraph list-type block whose parent is
a quote container. -/
def quoteListGuard (ctx : BackspaceCtx) (block : SharedBlockInfo) (blockId : String) : Bool :=
  block.ty != BlockType.paragraph
    && (match ctx.getParentIn blockId with
        | some p => p.ty == BlockType.quote
        | none => false)
    && LIST_BLOCK_TYPES.contains block.ty

/-- Guard (2) of the claim: nested deeper than one level and liftable. -/
def liftGuard (ctx : BackspaceCtx) (path : List Int) : Bool :=
  path.length > 1 && ctx.liftHandled

/-! ### `CustomEditor.tabEvent` selection restoration -/

/-- The environment of the selection-restoration phase of
`CustomEditor.tabEvent` (lines 360–446): the pre-mutation selection, the
recombined candidate selection (already `none` when its construction
found a nonexistent path or threw), the validity check and
nearest-valid-selection search (whose source files are not in the
repository snapshot, so they enter the model as oracles; the `none`
argument of `nearestValid` is the whole-document search), the new start
block's path, and the result of `Editor.start` on it (`none` when it
threw). -/
structure TabSelCtx where
  original : SlateRange
  newSelection : Option SlateRange
  isValidSel : SlateRange → Bool
  nearestValid : Option SlateRange → Option SlateRange
  newStartBlockPath : List Int
  startOfBlock : Option SlatePoint

/-- Which selection the tab handler finally applied. -/
inductive TabSelOutcome where
  | calculated (s : SlateRange)
  | nearestFromCalculated (s : SlateRange)
  | nearestFromOriginal (s : SlateRange)
  | startOfNewStartBlock (p : SlatePoint)
  | documentFallback (s : SlateRange)
  | unsetLogged
deriving DecidableEq, Repr

/-- The fallback chain of `tabEvent` (lines 398–445): nearest valid from
the calculated selection, then nearest valid from the original selection,
then start of the new start block (guarded by validity and by
`Editor.start` not throwing), then any valid selection in the document,
else leave the selection unset and log. -/
def tabFallbackChain (ctx : TabSelCtx) : TabSelOutcome :=
  let s1 : Option TabSelOutcome :=
    match ctx.newSelection with
    | some s => (ctx.nearestValid (some s)).map .nearestFromCalculated
    | none => none
  match s1 with
  | some o => o
  | none =>
    match ctx.nearestValid (some ctx.original) with
    | some t => .nearestFromOriginal t
    | none =>
      let s3 : Option TabSelOutcome :=
        if ctx.newStartBlockPath.length > 0 then
          match ctx.startOfBlock with
          | some p => if ctx.isValidSel ⟨p, p⟩ then some (.startOfNewStartBlock p) else none
          | none => none
        else none
      match s3 with
      | some o => o
      | none =>
        match ctx.nearestValid none with
        | some d => .documentFallback d
        | none => .unsetLogged

/-- The selection-restoration phase of `CustomEditor.tabEvent` (lines
394–446): apply the calculated selection when it is valid, otherwise run
the fallback chain. -/
def tabRestoreSelection (ctx : TabSelCtx) : TabSelOutcome :=
  match ctx.newSelection with
  | some s => if ctx.isValidSel s then .calculated s else tabFallbackChain ctx
  | none => tabFallbackChain ctx

/-- First successful strategy of an ordered list, defaulting to leaving
the selection unset — the claimed shape of the fallback behaviour. -/
def firstSomeOutcome (strategies : List (Option TabSelOutcome)) : TabSelOutcome :=
  match strategies with
  | [] => .unsetLogged
  | some o :: _ => o
  | none :: rest => firstSomeOutcome rest

/-- The four fallback strategies in the claimed order. -/
def tabFallbackStrategies (ctx : TabSelCtx) : List (Option TabSelOutcome) :=
  [ (ctx.newSelection.bind (fun s => ctx.nearestValid (some s))).map .nearestFromCalculated,
    (ctx.nearestValid (some ctx.original)).map .nearestFromOriginal,
    if ctx.newStartBlockPath.length > 0 then
      ctx.startOfBlock.bind
        (fun p => if ctx.isValidSel ⟨p, p⟩ then some (.startOfNewStartBlock p) else none)
    else none,
    (ctx.nearestValid none).map .documentFallback ]

/-! ### `CustomEditor.deleteBlock`

The delete verb composes the shared-tree delete transaction with the
Translator's mirroring; since the editable tree is (per the spec) a
faithful projection of the shared tree within the synchronous extent of a
transaction, both are modelled as one document tree rooted at the page. -/

/-- A document block node: id, type and ordered children. -/
inductive DocNode where
  | mk (id : String) (ty : BlockType) (children : List DocNode)
deriving Repr

/-- The id of a document node. -/
def DocNode.idOf : DocNode → String
  | .mk i _ _ => i

/-- The children of a document node. -/
def DocNode.childrenOf : DocNode → List DocNode
  | .mk _ _ cs => cs

mutual

/-- Port of `getParent(id, sharedRoot)` over the document tree: the node whose
child list contains `target`. -/
def findParentNode (target : String) (n : DocNode) : Option DocNode :=
  match n with
  | .mk i t cs =>
    if cs.any (fun c => c.idOf == target) then some (.mk i t cs)
    else findParentForest target cs

/-- Parent search over a forest, first match in order. -/
def findParentForest (target : String) : List DocNode → Option DocNode
  | [] => none
  | c :: rest =>
    match findParentNode target c with
    | some p => some p
    | none => findParentForest target rest

end

mutual

/-- Modelled from the spec: the shared-tree `deleteBlock` transaction
(its source file is not in the repository snapshot) — the delete detaches
the block from its parent's child order and recursively deletes its
subtree; the Translator mirrors the removal into the editable tree. -/
def removeBlockForest (target : String) : List DocNode → List DocNode
  | [] => []
  | c :: rest =>
    if c.idOf == target then rest
    else removeBlockNode target c :: removeBlockForest target rest

/-- Removal inside one node's subtree. -/
def removeBlockNode (target : String) (n : DocNode) : DocNode :=
  match n with
  | .mk i t cs => .mk i t (removeBlockForest target cs)

end

mutual

/-- Modelled from the spec: the shared-tree `addBlock` insert transaction
(its source file is not in the repository snapshot) — insert a new block
as the child of the block `parentId` at the given index; the Translator
mirrors the insertion into the editable tree. -/
def addBlockUnderNode (parentId : String) (child : DocNode) (idx : Nat) (n : DocNode) : DocNode :=
  match n with
  | .mk i t cs =>
    if i == parentId then .mk i t (cs.insertIdx idx child)
    else .mk i t (addBlockUnderForest parentId child idx cs)

/-- Insertion over a forest. -/
def addBlockUnderForest (parentId : String) (child : DocNode) (idx : Nat) :
    List DocNode → List DocNode
  | [] => []
  | c :: rest => addBlockUnderNode parentId child idx c :: addBlockUnderForest parentId child idx rest

end

/-- The default empty paragraph block inserted as a placeholder (the
source generates a fresh id; the model uses a fixed fresh id). -/
def defaultParagraphBlock : DocNode :=
  .mk "placeholder-paragraph" .paragraph []

/-- Remove a block from the page's subtree (the page itself is never the
target: its parent lookup fails first). -/
def removeBlockRoot (page : DocNode) (target : String) : DocNode :=
  match page with
  | .mk i t cs => .mk i t (removeBlockForest target cs)

/-- Port of `CustomEditor.deleteBlock` (command layer lines 800–872), reduced to
its document-tree effect: resolve the parent (warn and return when
absent), run the delete transaction, then — only when the editor's root
has zero children left — add a default empty paragraph under the
remembered parent at index 0.  Cursor placement does not alter the tree
and is outside the model. -/
def deleteBlockCmd (page : DocNode) (blockId : String) : DocNode :=
  match findParentNode blockId page with
  | none => page
  | some parentBlk =>
    let afterDelete := removeBlockRoot page blockId
    if afterDelete.childrenOf.length == 0 then
      addBlockUnderNode parentBlk.idOf defaultParagraphBlock 0 afterDelete
    else afterDelete

/-! ## Helper lemmas -/

mutual

/-- A pre-order match inside a node resolves at its reported path:
either the node itself (empty path) or a descendant reachable through the
node's children. -/
theorem findInNode_sound (pred : SlateNode → Bool) (n : SlateNode) :
    ∀ m q, findInNode pred n = some (m, q) →
      (q = [] ∧ m = n) ∨ getInForest q (nodeChildren n) = some m := by
  intro m q h
  unfold findInNode at h
  by_cases hp : pred n = true
  · rw [if_pos hp] at h
    simp only [Option.some.injEq, Prod.mk.injEq] at h
    exact Or.inl ⟨h.2.symm, h.1.symm⟩
  · rw [if_neg hp] at h
    match n, h with
    | .text s, h => simp at h
    | .element b t tid d cs, h =>
      exact Or.inr (by simpa [nodeChildren] using findInForest_sound pred cs m q h)

/-- A pre-order match in a forest resolves at its reported path. -/
theorem findInForest_sound (pred : SlateNode → Bool) (ns : List SlateNode) :
    ∀ m p, findInForest pred ns = some (m, p) → getInForest p ns = some m := by
  intro m p h
  match ns with
  | [] => simp [findInForest] at h
  | c :: rest =>
    rw [findInForest] at h
    cases hc : findInNode pred c with
    | some r =>
      obtain ⟨m0, q0⟩ := r
      rw [hc] at h
      simp only [Option.some.injEq, Prod.mk.injEq] at h
      obtain ⟨hm, hp⟩ := h
      subst hp
      rcases findInNode_sound pred c m0 q0 hc with ⟨hq, hmc⟩ | hget
      · subst hq
        rw [← hm, hmc]
        simp [getInForest]
      · rw [← hm]
        cases q0 with
        | nil => simp [getInForest] at hget
        | cons j q0t =>
          cases c with
          | text s =>
            rw [nodeChildren] at hget
            cases q0t <;> simp [getInForest] at hget
          | element b t tid d cs =>
            rw [nodeChildren] at hget
            rw [getInForest]
            rw [if_pos (by omega : (0 : Int) ≤ 0)]
            simpa using hget
    | none =>
      rw [hc] at h
      cases hr : findInForest pred rest with
      | some r =>
        obtain ⟨m0, p0⟩ := r
        rw [hr] at h
        simp only [Option.some.injEq, Prod.mk.injEq] at h
        obtain ⟨hm, hp⟩ := h
        rw [← hm]
        have ih := findInForest_sound pred rest m0 p0 hr
        cases p0 with
        | nil => simp [getInForest] at ih
        | cons i q =>
          simp only [bumpHead] at hp
          subst hp
          cases q with
          | nil =>
            rw [getInForest] at ih
            by_cases hi : (0 : Int) ≤ i
            · rw [if_pos hi] at ih
              rw [getInForest, if_pos (by omega : (0 : Int) ≤ i + 1)]
              rw [show (i + 1).toNat = i.toNat + 1 by omega]
              rw [List.getElem?_cons_succ]
              exact ih
            · rw [if_neg hi] at ih
              exact absurd ih (by simp)
          | cons j q2 =>
            rw [getInForest] at ih
            by_cases hi : (0 : Int) ≤ i
            · rw [if_pos hi] at ih
              rw [getInForest, if_pos (by omega : (0 : Int) ≤ i + 1)]
              rw [show (i + 1).toNat = i.toNat + 1 by omega]
              rw [List.getElem?_cons_succ]
              exact ih
            · rw [if_neg hi] at ih
              exact absurd ih (by simp)
      | none => rw [hr] at h; exact absurd h (by simp)

end

/-- Inserting as a child of a node found at path `p`, at any child index
between `0` and the found node's children count, succeeds. -/
theorem insertInForest_isSome_of_le :
    ∀ (p : List Int) (ns : List SlateNode) (b : Option String) (t : String)
      (tid : Option String) (d : List (String × String)) (cs : List SlateNode)
      (k : Int) (x : SlateNode),
      getInForest p ns = some (.element b t tid d cs) → 0 ≤ k →
      k ≤ (cs.length : Int) →
      ∃ ns2, insertInForest (p ++ [k]) x ns = some ns2
  | [], ns, b, t, tid, d, cs, k, x => by
    intro h _ _
    simp [getInForest] at h
  | [i], ns, b, t, tid, d, cs, k, x => by
    intro h hk0 hklen
    rw [getInForest] at h
    by_cases hi : (0 : Int) ≤ i
    · rw [if_pos hi] at h
      have hgt : ¬ (k > (cs.length : Int)) := by omega
      refine ⟨ns.set i.toNat
        (.element b t tid d (cs.insertIdx (spliceIdx k cs.length) x)), ?_⟩
      show insertInForest (i :: k :: []) x ns = _
      simp [insertInForest, hi, h, hgt]
    · rw [if_neg hi] at h
      simp at h
  | i :: j :: q, ns, b, t, tid, d, cs, k, x => by
    intro h hk0 hklen
    rw [getInForest] at h
    by_cases hi : (0 : Int) ≤ i
    · rw [if_pos hi] at h
      cases hlook : ns[i.toNat]? with
      | none => rw [hlook] at h; simp at h
      | some n =>
        rw [hlook] at h
        cases n with
        | text s => simp at h
        | element b2 t2 tid2 d2 cs2 =>
          have h2 : getInForest (j :: q) cs2 = some (.element b t tid d cs) := h
          obtain ⟨cs3, hcs3⟩ :=
            insertInForest_isSome_of_le (j :: q) cs2 b t tid d cs k x h2 hk0 hklen
          rw [List.cons_append] at hcs3
          refine ⟨ns.set i.toNat (.element b2 t2 tid2 d2 cs3), ?_⟩
          show insertInForest (i :: ((j :: q) ++ [k])) x ns = _
          rw [List.cons_append]
          simp [insertInForest, hi, hlook, hcs3]
    · rw [if_neg hi] at h
      simp at h

/-- A materialized text node always carries at least one child, and every
child is a text run. -/
theorem buildTextNode_children (root : SharedRoot) (tid : Option String) (tn : SlateNode)
    (h : buildTextNode root tid = some tn) :
    nodeChildren tn ≠ [] ∧ ∀ c ∈ nodeChildren tn, isTextLeaf c = true := by
  unfold buildTextNode at h
  cases hget : getText tid root with
  | none => rw [hget] at h; simp at h
  | some delta =>
    rw [hget] at h
    simp only [Option.some.injEq] at h
    subst h
    by_cases hempty : (delta.flatMap deltaInsertToSlateNode).isEmpty = true
    · rw [nodeChildren]
      rw [if_pos hempty]
      constructor
      · simp
      · intro c hc
        simp only [List.mem_singleton] at hc
        subst hc
        rfl
    · rw [nodeChildren]
      rw [if_neg hempty]
      constructor
      · intro hnil
        rw [hnil] at hempty
        simp at hempty
      · intro c hc
        rw [List.mem_flatMap] at hc
        obtain ⟨s, _, hcs⟩ := hc
        simp only [deltaInsertToSlateNode, List.mem_singleton] at hcs
        subst hcs
        rfl

/-- The sort comparator is transitive. -/
theorem updLe_trans (a b c : String × String) :
    updLe a b = true → updLe b c = true → updLe a c = true := by
  simp only [updLe, Bool.or_eq_true, beq_iff_eq, bne_iff_ne]
  tauto

/-- The sort comparator is total. -/
theorem updLe_total (a b : String × String) : (updLe a b || updLe b a) = true := by
  simp only [updLe, Bool.or_eq_true, beq_iff_eq, bne_iff_ne]
  tauto

/-- In the sorted update list, no delete appears after a non-delete: any
pair in order satisfies "if the later one is a delete, so is the earlier
one". -/
theorem sortUpdates_deletes_first (l : List (String × String)) :
    (sortUpdates l).Pairwise (fun a b => b.2 = "delete" → a.2 = "delete") := by
  have h := List.sorted_mergeSort updLe_trans updLe_total l
  refine h.imp ?_
  intro a b hab
  simp only [updLe, Bool.or_eq_true, beq_iff_eq, bne_iff_ne] at hab
  tauto

/-- A fold whose every step returns the state unchanged is the identity. -/
theorem foldlM_processUpdate_id (root : SharedRoot) :
    ∀ (l : List (String × String)) (st : List SlateNode × KeyPath),
      (∀ u ∈ l, processUpdate root st u = Except.ok st) →
      l.foldlM (processUpdate root) st = Except.ok st := by
  intro l
  induction l with
  | nil => intro st h; rfl
  | cons u rest ih =>
    intro st h
    have hu : processUpdate root st u = Except.ok st := h u (by simp)
    have hrest : ∀ v ∈ rest, processUpdate root st v = Except.ok st := by
      intro v hv
      exact h v (by simp [hv])
    calc (u :: rest).foldlM (processUpdate root) st
        = processUpdate root st u >>= (fun st2 => rest.foldlM (processUpdate root) st2) := by
          simp [List.foldlM_cons]
      _ = rest.foldlM (processUpdate root) st := by rw [hu]; rfl
      _ = Except.ok st := ih st hrest

/-- An update step that neither adds nor deletes leaves the state
unchanged (the `update` action is an unimplemented stub). -/
theorem processUpdate_stub (root : SharedRoot) (st : List SlateNode × KeyPath)
    (u : String × String) (ha : ¬ u.2 = "add") (hd : ¬ u.2 = "delete") :
    processUpdate root st u = Except.ok st := by
  unfold processUpdate
  rw [if_neg (by simpa using ha), if_neg (by simpa using hd)]

/-- A delete whose block id is absent from the editable tree leaves the
state unchanged. -/
theorem processUpdate_delete_absent (root : SharedRoot) (st : List SlateNode × KeyPath)
    (u : String × String) (hd : u.2 = "delete")
    (habs : findInForest (isBlockElem u.1) st.1 = none) :
    processUpdate root st u = Except.ok st := by
  unfold processUpdate
  rw [if_neg (by simp [hd]), if_pos (by simp [hd])]
  rw [handleDeleteNode, habs]

/-- A splice start index never exceeds the length when the raw index does
not. -/
theorem spliceIdx_le (i : Int) (len : Nat) (h : i ≤ (len : Int)) : spliceIdx i len ≤ len := by
  unfold spliceIdx
  split_ifs with h0
  · have hm : (max ((len : Int) + i) 0) ≤ (len : Int) := by
      apply max_le <;> omega
    omega
  · omega

/-- A successful insert places the inserted node at a resolvable path of
the resulting forest. -/
theorem insertInForest_get :
    ∀ (p : List Int) (x : SlateNode) (ns ns2 : List SlateNode),
      insertInForest p x ns = some ns2 → ∃ p2, getInForest p2 ns2 = some x
  | [], x, ns, ns2 => by
    intro h
    simp [insertInForest] at h
  | [i], x, ns, ns2 => by
    intro h
    rw [insertInForest] at h
    by_cases hgt : i > (ns.length : Int)
    · rw [if_pos hgt] at h
      simp at h
    · rw [if_neg hgt] at h
      simp only [Option.some.injEq] at h
      subst h
      have hle : spliceIdx i ns.length ≤ ns.length := spliceIdx_le i ns.length (by omega)
      refine ⟨[(spliceIdx i ns.length : Int)], ?_⟩
      rw [getInForest, if_pos (by omega : (0 : Int) ≤ (spliceIdx i ns.length : Int))]
      rw [Int.toNat_natCast]
      rw [List.getElem?_eq_getElem
        (by rw [List.length_insertIdx _ _ hle]; omega)]
      rw [List.getElem_insertIdx_self ns x (spliceIdx i ns.length) hle]
  | i :: j :: q, x, ns, ns2 => by
    intro h
    rw [insertInForest] at h
    by_cases hi : (0 : Int) ≤ i
    · rw [if_pos hi] at h
      cases hlook : ns[i.toNat]? with
      | none => rw [hlook] at h; simp at h
      | some n =>
        rw [hlook] at h
        cases n with
        | text s => simp at h
        | element b t tid d cs =>
          have h2 : (insertInForest (j :: q) x cs).map
              (fun cs2 => ns.set i.toNat (.element b t tid d cs2)) = some ns2 := h
          cases hrec : insertInForest (j :: q) x cs with
          | none => rw [hrec] at h2; simp at h2
          | some cs3 =>
            rw [hrec] at h2
            simp at h2
            subst h2
            obtain ⟨q2, hq2⟩ := insertInForest_get (j :: q) x cs cs3 hrec
            have hlt : i.toNat < ns.length := by
              by_contra hge
              rw [List.getElem?_eq_none (by omega)] at hlook
              exact absurd hlook (by simp)
            cases q2 with
            | nil => simp [getInForest] at hq2
            | cons j2 q2t =>
              refine ⟨i :: j2 :: q2t, ?_⟩
              rw [getInForest, if_pos hi, List.getElem?_set]
              rw [if_pos rfl, if_pos hlt]
              exact hq2
    · rw [if_neg hi] at h
      simp at h

/-! ## Claim theorems -/

/-- C1: in every block-map batch, all changed block ids tagged `delete`
are processed before any tagged `add` or `update` (no delete follows a
non-delete in the processed order); and in the concrete
delete-A-plus-add-B-at-A's-index batch, processing yields B at the index
A previously occupied (index 0), never an off-by-one position. -/
theorem claim_C1 :
    (∀ l : List (String × String),
      (sortUpdates l).Pairwise (fun a b => b.2 = "delete" → a.2 = "delete")) ∧
    applyBlocksYEvent
      { pageId := "pg",
        blocks := [("pg", ⟨"page", "", "pg-ch", none, []⟩),
                   ("B", ⟨"paragraph", "pg", "B-ch", none, []⟩)],
        childrenMap := [("pg-ch", ["B"]), ("B-ch", [])],
        textMap := [] }
      [SlateNode.element (some "A") "paragraph" none [] []]
      ["B", "A"]
      [("B", "add"), ("A", "delete")]
      = Except.ok [SlateNode.element (some "B") "paragraph" none [] []] := by
  constructor
  · exact fun l => sortUpdates_deletes_first l
  · have hsort : sortUpdates [("B", "add"), ("A", "delete")]
        = [("A", "delete"), ("B", "add")] := by
      simp [sortUpdates, updLe, List.mergeSort, List.merge]
    unfold applyBlocksYEvent
    rw [show buildUpdates ["B", "A"] [("B", "add"), ("A", "delete")]
        = [("B", "add"), ("A", "delete")] from rfl]
    rw [hsort]
    rfl

/-- C2: for every collapsed-cursor `deleteBlockBackward` whose block entry
and shared block resolve, the chosen action is exactly the first matching
guard of the priority list: quote-parented non-paragraph list conversion,
then lift-if-nested, then non-paragraph type conversion, with merge as
the default — each guard fully handling the operation. -/
theorem claim_C2 (ctx : BackspaceCtx) (blockId : String) (path : List Int)
    (block : SharedBlockInfo)
    (hcol : rangeIsCollapsed ctx.newAt = true)
    (hentry : ctx.blockEntry = some (blockId, path))
    (hblock : ctx.getBlockIn blockId = some block) :
    deleteBlockBackward ctx =
      firstMatch
        [(quoteListGuard ctx block blockId, BackspaceAction.nonParagraphHandled),
         (liftGuard ctx path, BackspaceAction.lifted),
         (block.ty != BlockType.paragraph, BackspaceAction.nonParagraphHandled)]
        BackspaceAction.merged := by
  unfold deleteBlockBackward
  rw [hcol]
  simp only [if_true, hentry, hblock]
  unfold firstMatch quoteListGuard liftGuard
  rfl

/-- C2 witness: a heading block (non-paragraph, no quote parent, not
nested, not liftable) at a collapsed cursor takes the type-conversion
guard. -/
theorem claim_C2_witness :
    rangeIsCollapsed (SlateRange.mk ⟨[0, 0], 0⟩ ⟨[0, 0], 0⟩) = true ∧
    deleteBlockBackward
      { newAt := ⟨⟨[0, 0], 0⟩, ⟨[0, 0], 0⟩⟩,
        blockEntry := some ("b", [0]),
        getBlockIn := fun i => if i = "b" then some ⟨BlockType.heading⟩ else none,
        getParentIn := fun _ => none,
        liftHandled := false } =
      firstMatch
        [(quoteListGuard
            { newAt := ⟨⟨[0, 0], 0⟩, ⟨[0, 0], 0⟩⟩,
              blockEntry := some ("b", [0]),
              getBlockIn := fun i => if i = "b" then some ⟨BlockType.heading⟩ else none,
              getParentIn := fun _ => none,
              liftHandled := false } ⟨BlockType.heading⟩ "b",
          BackspaceAction.nonParagraphHandled),
         (liftGuard
            { newAt := ⟨⟨[0, 0], 0⟩, ⟨[0, 0], 0⟩⟩,
              blockEntry := some ("b", [0]),
              getBlockIn := fun i => if i = "b" then some ⟨BlockType.heading⟩ else none,
              getParentIn := fun _ => none,
              liftHandled := false } [0],
          BackspaceAction.lifted),
         ((⟨BlockType.heading⟩ : SharedBlockInfo).ty != BlockType.paragraph,
          BackspaceAction.nonParagraphHandled)]
        BackspaceAction.merged :=
  ⟨rfl,
    claim_C2
      { newAt := ⟨⟨[0, 0], 0⟩, ⟨[0, 0], 0⟩⟩,
        blockEntry := some ("b", [0]),
        getBlockIn := fun i => if i = "b" then some ⟨BlockType.heading⟩ else none,
        getParentIn := fun _ => none,
        liftHandled := false }
      "b" [0] ⟨BlockType.heading⟩ rfl rfl (by simp)⟩

/-- C10: a collapsed-cursor `deleteBlockBackward` whose block entry cannot
be resolved, or whose resolved block id no longer exists in the shared
root, warns and returns without mutating either tree (and, being a total
function of its inputs, without throwing). -/
theorem claim_C10 (ctx : BackspaceCtx) (hcol : rangeIsCollapsed ctx.newAt = true) :
    (ctx.blockEntry = none →
      deleteBlockBackward ctx = BackspaceAction.warnNoBlockEntry ∧
      (deleteBlockBackward ctx).isMutation = false) ∧
    (∀ blockId path, ctx.blockEntry = some (blockId, path) →
      ctx.getBlockIn blockId = none →
      deleteBlockBackward ctx = BackspaceAction.warnBlockGone ∧
      (deleteBlockBackward ctx).isMutation = false) := by
  constructor
  · intro hnone
    have h : deleteBlockBackward ctx = BackspaceAction.warnNoBlockEntry := by
      unfold deleteBlockBackward
      rw [hcol]
      simp only [if_true, hnone]
    exact ⟨h, by rw [h]; rfl⟩
  · intro blockId path hentry hgone
    have h : deleteBlockBackward ctx = BackspaceAction.warnBlockGone := by
      unfold deleteBlockBackward
      rw [hcol]
      simp only [if_true, hentry, hgone]
    exact ⟨h, by rw [h]; rfl⟩

/-- C10 witness: an unresolvable block entry warns without mutation, and a
resolved entry whose block id is gone from the shared root warns without
mutation. -/
theorem claim_C10_witness :
    rangeIsCollapsed (SlateRange.mk ⟨[0, 0], 0⟩ ⟨[0, 0], 0⟩) = true ∧
    deleteBlockBackward
      { newAt := ⟨⟨[0, 0], 0⟩, ⟨[0, 0], 0⟩⟩, blockEntry := none,
        getBlockIn := fun _ => none, getParentIn := fun _ => none,
        liftHandled := false } = BackspaceAction.warnNoBlockEntry ∧
    deleteBlockBackward
      { newAt := ⟨⟨[0, 0], 0⟩, ⟨[0, 0], 0⟩⟩, blockEntry := some ("gone", [0]),
        getBlockIn := fun _ => none, getParentIn := fun _ => none,
        liftHandled := false } = BackspaceAction.warnBlockGone :=
  ⟨rfl,
    ((claim_C10
      { newAt := ⟨⟨[0, 0], 0⟩, ⟨[0, 0], 0⟩⟩, blockEntry := none,
        getBlockIn := fun _ => none, getParentIn := fun _ => none,
        liftHandled := false } rfl).1 rfl).1,
    ((claim_C10
      { newAt := ⟨⟨[0, 0], 0⟩, ⟨[0, 0], 0⟩⟩, blockEntry := some ("gone", [0]),
        getBlockIn := fun _ => none, getParentIn := fun _ => none,
        liftHandled := false } rfl).2 "gone" [0] rfl rfl).1⟩

/-- The ported fallback chain equals first-success evaluation of the four
ordered strategies. -/
theorem tabFallbackChain_eq (ctx : TabSelCtx) :
    tabFallbackChain ctx = firstSomeOutcome (tabFallbackStrategies ctx) := by
  unfold tabFallbackChain tabFallbackStrategies
  cases hns : ctx.newSelection with
  | some s =>
    cases h1 : ctx.nearestValid (some s) with
    | some t => simp [*, firstSomeOutcome]
    | none =>
      cases h2 : ctx.nearestValid (some ctx.original) with
      | some t => simp [*, firstSomeOutcome]
      | none =>
        by_cases h3 : ctx.newStartBlockPath.length > 0
        · cases h4 : ctx.startOfBlock with
          | some p =>
            by_cases h5 : ctx.isValidSel ⟨p, p⟩ = true
            · simp [*, firstSomeOutcome]
            · cases h6 : ctx.nearestValid none with
              | some d => simp [*, firstSomeOutcome]
              | none => simp [*, firstSomeOutcome]
          | none =>
            cases h6 : ctx.nearestValid none with
            | some d => simp [*, firstSomeOutcome]
            | none => simp [*, firstSomeOutcome]
        · cases h6 : ctx.nearestValid none with
          | some d => simp [*, firstSomeOutcome]
          | none => simp [*, firstSomeOutcome]
  | none =>
    cases h2 : ctx.nearestValid (some ctx.original) with
    | some t => simp [*, firstSomeOutcome]
    | none =>
      by_cases h3 : ctx.newStartBlockPath.length > 0
      · cases h4 : ctx.startOfBlock with
        | some p =>
          by_cases h5 : ctx.isValidSel ⟨p, p⟩ = true
          · simp [*, firstSomeOutcome]
          · cases h6 : ctx.nearestValid none with
            | some d => simp [*, firstSomeOutcome]
            | none => simp [*, firstSomeOutcome]
        | none =>
          cases h6 : ctx.nearestValid none with
          | some d => simp [*, firstSomeOutcome]
          | none => simp [*, firstSomeOutcome]
      · cases h6 : ctx.nearestValid none with
        | some d => simp [*, firstSomeOutcome]
        | none => simp [*, firstSomeOutcome]

/-- C7: when the recombined tab-event selection is absent or fails the
validity check, the applied selection is the first success among, in
order: nearest valid from the calculated selection, nearest valid from
the original selection, start of the new start block, any valid selection
in the document; and when all four fail the selection is left unset and
the failure logged. -/
theorem claim_C7 (ctx : TabSelCtx)
    (hinvalid : ∀ s, ctx.newSelection = some s → ctx.isValidSel s = false) :
    tabRestoreSelection ctx = firstSomeOutcome (tabFallbackStrategies ctx) := by
  unfold tabRestoreSelection
  cases hns : ctx.newSelection with
  | none => exact tabFallbackChain_eq ctx
  | some s =>
    simp only [hinvalid s hns, Bool.false_eq_true, if_false]
    exact tabFallbackChain_eq ctx

/-- C7 witness: with no recombined selection and every oracle failing, the
tab handler leaves the selection unset. -/
theorem claim_C7_witness :
    (∀ s, ({ original := ⟨⟨[0, 0], 0⟩, ⟨[0, 0], 0⟩⟩, newSelection := none,
             isValidSel := fun _ => false, nearestValid := fun _ => none,
             newStartBlockPath := [], startOfBlock := none } : TabSelCtx).newSelection
        = some s →
      ({ original := ⟨⟨[0, 0], 0⟩, ⟨[0, 0], 0⟩⟩, newSelection := none,
         isValidSel := fun _ => false, nearestValid := fun _ => none,
         newStartBlockPath := [], startOfBlock := none } : TabSelCtx).isValidSel s
        = false) ∧
    tabRestoreSelection
      { original := ⟨⟨[0, 0], 0⟩, ⟨[0, 0], 0⟩⟩, newSelection := none,
        isValidSel := fun _ => false, nearestValid := fun _ => none,
        newStartBlockPath := [], startOfBlock := none }
      = firstSomeOutcome (tabFallbackStrategies
        { original := ⟨⟨[0, 0], 0⟩, ⟨[0, 0], 0⟩⟩, newSelection := none,
          isValidSel := fun _ => false, nearestValid := fun _ => none,
          newStartBlockPath := [], startOfBlock := none }) :=
  ⟨fun _ h => Option.noConfusion h,
    claim_C7
      { original := ⟨⟨[0, 0], 0⟩, ⟨[0, 0], 0⟩⟩, newSelection := none,
        isValidSel := fun _ => false, nearestValid := fun _ => none,
        newStartBlockPath := [], startOfBlock := none }
      (fun _ h => Option.noConfusion h)⟩

/-- C8: an `add` whose parent block is absent from the editable tree and
has no same-batch cached path is a non-fatal skip that leaves the
editable tree and cache unchanged, and the fold over the remaining batch
updates continues from the unchanged state; when the parent is absent but
cached, the cached path extended with the shared ordinal plus one is used
as the nested insertion path. -/
theorem claim_C8 (root : SharedRoot) (editor : List SlateNode) (key : String)
    (kp : KeyPath) (block parentBlk : YBlock) (parentChildren : List String)
    (rest : List (String × String))
    (hb : getBlock key root = some block)
    (hp : getBlock block.parent root = some parentBlk)
    (hc : getChildrenArray parentBlk.childrenId root = some parentChildren)
    (hroot : block.parent ≠ root.pageId)
    (hfind : findInForest (isBlockElem block.parent) editor = none) :
    (kp.lookup block.parent = none →
      handleNewBlock root editor key kp = Except.ok (editor, kp) ∧
      ((key, "add") :: rest).foldlM (processUpdate root) (editor, kp)
        = rest.foldlM (processUpdate root) (editor, kp)) ∧
    (∀ cached, kp.lookup block.parent = some cached →
      computeInsertPath root editor kp block.parent (blockIndexIn parentChildren key)
        = some (cached ++ [blockIndexIn parentChildren key + 1])) := by
  constructor
  · intro hcache
    have hskip : handleNewBlock root editor key kp = Except.ok (editor, kp) := by
      unfold handleNewBlock
      simp only [hb, hp, hc]
      have hpath : computeInsertPath root editor kp block.parent
          (blockIndexIn parentChildren key) = none := by
        unfold computeInsertPath
        rw [if_pos hroot, hfind, hcache]
      rw [hpath]
    refine ⟨hskip, ?_⟩
    have hstep : processUpdate root (editor, kp) (key, "add") = Except.ok (editor, kp) := by
      unfold processUpdate
      simp only [if_pos rfl]
      exact hskip
    rw [List.foldlM_cons, hstep]
    rfl
  · intro cached hcache
    unfold computeInsertPath
    rw [if_pos hroot, hfind, hcache]

/-- C8 witness: a nested block whose parent is neither materialized nor
cached is skipped with the fold continuing, and the same block with the
parent cached at path `[0]` is routed to the nested path `[0, 1]`. -/
theorem claim_C8_witness :
    getBlock "b2"
      { pageId := "pg",
        blocks := [("pg", ⟨"page", "", "pg-ch", none, []⟩),
                   ("p2", ⟨"toggle_list", "pg", "p2-ch", none, []⟩),
                   ("b2", ⟨"paragraph", "p2", "b2-ch", none, []⟩)],
        childrenMap := [("pg-ch", ["p2"]), ("p2-ch", ["b2"]), ("b2-ch", [])],
        textMap := [] } = some ⟨"paragraph", "p2", "b2-ch", none, []⟩ ∧
    handleNewBlock
      { pageId := "pg",
        blocks := [("pg", ⟨"page", "", "pg-ch", none, []⟩),
                   ("p2", ⟨"toggle_list", "pg", "p2-ch", none, []⟩),
                   ("b2", ⟨"paragraph", "p2", "b2-ch", none, []⟩)],
        childrenMap := [("pg-ch", ["p2"]), ("p2-ch", ["b2"]), ("b2-ch", [])],
        textMap := [] } [] "b2" [] = Except.ok ([], []) ∧
    computeInsertPath
      { pageId := "pg",
        blocks := [("pg", ⟨"page", "", "pg-ch", none, []⟩),
                   ("p2", ⟨"toggle_list", "pg", "p2-ch", none, []⟩),
                   ("b2", ⟨"paragraph", "p2", "b2-ch", none, []⟩)],
        childrenMap := [("pg-ch", ["p2"]), ("p2-ch", ["b2"]), ("b2-ch", [])],
        textMap := [] } [] [("p2", [0])] "p2" (blockIndexIn ["b2"] "b2")
      = some [0, 1] :=
  ⟨rfl,
    ((claim_C8
      { pageId := "pg",
        blocks := [("pg", ⟨"page", "", "pg-ch", none, []⟩),
                   ("p2", ⟨"toggle_list", "pg", "p2-ch", none, []⟩),
                   ("b2", ⟨"paragraph", "p2", "b2-ch", none, []⟩)],
        childrenMap := [("pg-ch", ["p2"]), ("p2-ch", ["b2"]), ("b2-ch", [])],
        textMap := [] } [] "b2" [] ⟨"paragraph", "p2", "b2-ch", none, []⟩
      ⟨"toggle_list", "pg", "p2-ch", none, []⟩ ["b2"] [] rfl rfl rfl
      (by decide) rfl).1 rfl).1,
    ((claim_C8
      { pageId := "pg",
        blocks := [("pg", ⟨"page", "", "pg-ch", none, []⟩),
                   ("p2", ⟨"toggle_list", "pg", "p2-ch", none, []⟩),
                   ("b2", ⟨"paragraph", "p2", "b2-ch", none, []⟩)],
        childrenMap := [("pg-ch", ["p2"]), ("p2-ch", ["b2"]), ("b2-ch", [])],
        textMap := [] } [] "b2" [("p2", [0])] ⟨"paragraph", "p2", "b2-ch", none, []⟩
      ⟨"toggle_list", "pg", "p2-ch", none, []⟩ ["b2"] [] rfl rfl rfl
      (by decide) rfl).2 [0] rfl)⟩

/-- C9: for a nested add whose parent is located in the editable tree and
whose block id occurs in the parent's shared child order, the computed
child insertion index is the shared ordinal plus one exactly when the
parent node's first child is a text node (plus zero otherwise), clamped
to the parent's current children count; it is therefore within bounds and
the editable-tree insert at the computed path cannot fail. -/
theorem claim_C9 (root : SharedRoot) (editor : List SlateNode) (kp : KeyPath)
    (parentId key : String) (parentChildren : List String) (parentPath : List Int)
    (b : Option String) (t : String) (tid : Option String)
    (d : List (String × String)) (cs : List SlateNode) (iN : Nat)
    (hfind : findInForest (isBlockElem parentId) editor
      = some (.element b t tid d cs, parentPath))
    (hroot : parentId ≠ root.pageId)
    (hidx : parentChildren.findIdx? (· == key) = some iN) :
    ∃ k : Int,
      computeInsertPath root editor kp parentId (blockIndexIn parentChildren key)
        = some (parentPath ++ [k]) ∧
      k = min ((iN : Int) + (if firstChildIsTextRun cs then 1 else 0))
            (cs.length : Int) ∧
      0 ≤ k ∧ k ≤ (cs.length : Int) ∧
      ∀ x, ∃ ed2, insertInForest (parentPath ++ [k]) x editor = some ed2 := by
  have hsound := findInForest_sound (isBlockElem parentId) editor _ _ hfind
  have hblockIdx : blockIndexIn parentChildren key = ((iN : Nat) : Int) := by
    unfold blockIndexIn
    rw [hidx]
  have hk : nestedInsertChildIdx (.element b t tid d cs) ((iN : Nat) : Int)
      = min ((iN : Int) + (if firstChildIsTextRun cs then 1 else 0))
          (cs.length : Int) := by
    cases cs with
    | nil =>
      show min ((iN : Int) + 1) (((0 : Nat) : Int))
        = min ((iN : Int) + 0) (((0 : Nat) : Int))
      rw [min_def, min_def]
      split_ifs
      all_goals omega
    | cons s tl => rfl
  have h0 : (0 : Int) ≤ min ((iN : Int) + (if firstChildIsTextRun cs then 1 else 0))
      (cs.length : Int) := by
    apply le_min
    · cases hft : firstChildIsTextRun cs
      all_goals simp [hft]
      all_goals omega
    · omega
  have hlen : min ((iN : Int) + (if firstChildIsTextRun cs then 1 else 0))
      (cs.length : Int) ≤ (cs.length : Int) := min_le_right _ _
  refine ⟨_, ?_, rfl, h0, hlen, ?_⟩
  · unfold computeInsertPath
    rw [if_pos hroot, hfind, hblockIdx]
    show some (parentPath ++ [nestedInsertChildIdx (SlateNode.element b t tid d cs)
      ((iN : Nat) : Int)]) = _
    rw [hk]
  · intro x
    exact insertInForest_isSome_of_le parentPath editor b t tid d cs _ x hsound h0 hlen

/-- C9 witness: a parent with a leading text child and one existing block
child receives a new second block child at in-bounds index 2. -/
theorem claim_C9_witness :
    findInForest (isBlockElem "p")
      [SlateNode.element (some "p") "toggle_list" none []
        [SlateNode.element none "text" (some "tp") [] [SlateNode.text "hi"],
         SlateNode.element (some "c0") "paragraph" none [] []]]
      = some (SlateNode.element (some "p") "toggle_list" none []
        [SlateNode.element none "text" (some "tp") [] [SlateNode.text "hi"],
         SlateNode.element (some "c0") "paragraph" none [] []], [0]) ∧
    (∃ k : Int,
      computeInsertPath
        { pageId := "pg", blocks := [], childrenMap := [], textMap := [] }
        [SlateNode.element (some "p") "toggle_list" none []
          [SlateNode.element none "text" (some "tp") [] [SlateNode.text "hi"],
           SlateNode.element (some "c0") "paragraph" none [] []]]
        [] "p" (blockIndexIn ["c0", "cN"] "cN")
        = some ([0] ++ [k]) ∧
      k = min ((1 : Int) + (if firstChildIsTextRun
            [SlateNode.element none "text" (some "tp") [] [SlateNode.text "hi"],
             SlateNode.element (some "c0") "paragraph" none [] []] then 1 else 0))
          (2 : Int) ∧
      0 ≤ k ∧ k ≤ (2 : Int) ∧
      ∀ x, ∃ ed2, insertInForest ([0] ++ [k]) x
        [SlateNode.element (some "p") "toggle_list" none []
          [SlateNode.element none "text" (some "tp") [] [SlateNode.text "hi"],
           SlateNode.element (some "c0") "paragraph" none [] []]]
        = some ed2) :=
  ⟨rfl,
    claim_C9
      { pageId := "pg", blocks := [], childrenMap := [], textMap := [] }
      [SlateNode.element (some "p") "toggle_list" none []
        [SlateNode.element none "text" (some "tp") [] [SlateNode.text "hi"],
         SlateNode.element (some "c0") "paragraph" none [] []]]
      [] "p" "cN" ["c0", "cN"] [0] (some "p") "toggle_list" none []
      [SlateNode.element none "text" (some "tp") [] [SlateNode.text "hi"],
       SlateNode.element (some "c0") "paragraph" none [] []] 1
      rfl (by decide) rfl⟩

/-- C3 counterexample: a block whose `externalTextId` is the non-null
`"t1"` but whose Text entity is absent from the text map is materialized
with zero text children — refuting the unconditional text-child
invariant. -/
theorem claim_C3_counterexample :
    handleNewBlock
      { pageId := "pg",
        blocks := [("pg", ⟨"page", "", "pg-ch", none, []⟩),
                   ("b1", ⟨"paragraph", "pg", "b1-ch", some "t1", []⟩)],
        childrenMap := [("pg-ch", ["b1"]), ("b1-ch", [])],
        textMap := [] }
      [] "b1" []
      = Except.ok ([SlateNode.element (some "b1") "paragraph" none [] []], [("b1", [0])]) ∧
    (getBlock "b1"
      { pageId := "pg",
        blocks := [("pg", ⟨"page", "", "pg-ch", none, []⟩),
                   ("b1", ⟨"paragraph", "pg", "b1-ch", some "t1", []⟩)],
        childrenMap := [("pg-ch", ["b1"]), ("b1-ch", [])],
        textMap := [] }).map YBlock.externalId = some (some "t1") ∧
    nodeChildren (SlateNode.element (some "b1") "paragraph" none [] []) = [] :=
  ⟨rfl, rfl, rfl⟩

/-- C3 amended: for every block the translator materializes whose Text
entity exists (the `getText` lookup succeeds), the materialized node
carries exactly one text-element child whose own children are text runs,
at least one of them — even when the Text entity has zero runs. -/
theorem claim_C3_amended (root : SharedRoot) (editor : List SlateNode) (key : String)
    (kp : KeyPath) (block : YBlock) (ed2 : List SlateNode) (kp2 : KeyPath)
    (hb : getBlock key root = some block)
    (htext : (getText block.externalId root).isSome = true)
    (hrun : handleNewBlock root editor key kp = Except.ok (ed2, kp2))
    (hne : ed2 ≠ editor) :
    ∃ p tn, getInForest p ed2
        = some (.element (some key) block.ty none block.data [tn]) ∧
      nodeChildren tn ≠ [] ∧ ∀ c ∈ nodeChildren tn, isTextLeaf c = true := by
  obtain ⟨delta, hdelta⟩ := Option.isSome_iff_exists.mp htext
  have htn0 : buildTextNode root block.externalId
      = some (.element none "text" block.externalId []
        (if (delta.flatMap deltaInsertToSlateNode).isEmpty then [SlateNode.text ""]
         else delta.flatMap deltaInsertToSlateNode)) := by
    unfold buildTextNode
    rw [hdelta]
  unfold handleNewBlock at hrun
  simp only [hb, blockToSlateNode, htn0] at hrun
  cases hp : getBlock block.parent root with
  | none =>
    rw [hp] at hrun
    simp only [Except.ok.injEq, Prod.mk.injEq] at hrun
    exact absurd hrun.1.symm hne
  | some parentBlk =>
    simp only [hp] at hrun
    cases hc : getChildrenArray parentBlk.childrenId root with
    | none =>
      rw [hc] at hrun
      exact Except.noConfusion hrun
    | some parentChildren =>
      simp only [hc] at hrun
      cases hpath : computeInsertPath root editor kp block.parent
          (blockIndexIn parentChildren key) with
      | none =>
        rw [hpath] at hrun
        simp only [Except.ok.injEq, Prod.mk.injEq] at hrun
        exact absurd hrun.1.symm hne
      | some path =>
        simp only [hpath] at hrun
        cases hins : insertInForest path
            (.element (some key) block.ty none block.data
              [.element none "text" block.externalId []
                (if (delta.flatMap deltaInsertToSlateNode).isEmpty then [SlateNode.text ""]
                 else delta.flatMap deltaInsertToSlateNode)]) editor with
        | none =>
          rw [hins] at hrun
          simp only [Except.ok.injEq, Prod.mk.injEq] at hrun
          exact absurd hrun.1.symm hne
        | some ed3 =>
          rw [hins] at hrun
          simp only [Except.ok.injEq, Prod.mk.injEq] at hrun
          obtain ⟨hed, hkp⟩ := hrun
          obtain ⟨p2, hp2⟩ := insertInForest_get path _ editor ed3 hins
          obtain ⟨hne0, hall⟩ := buildTextNode_children root block.externalId _ htn0
          subst hed
          exact ⟨p2, _, hp2, hne0, hall⟩

/-- C3 amended witness: a block whose Text entity exists with zero runs is
materialized with a text child holding one empty text run. -/
theorem claim_C3_witness :
    getBlock "b1"
      { pageId := "pg",
        blocks := [("pg", ⟨"page", "", "pg-ch", none, []⟩),
                   ("b1", ⟨"paragraph", "pg", "b1-ch", some "t1", []⟩)],
        childrenMap := [("pg-ch", ["b1"]), ("b1-ch", [])],
        textMap := [("t1", [])] } = some ⟨"paragraph", "pg", "b1-ch", some "t1", []⟩ ∧
    (∃ p tn, getInForest p
        [SlateNode.element (some "b1") "paragraph" none []
          [SlateNode.element none "text" (some "t1") [] [SlateNode.text ""]]]
        = some (.element (some "b1") "paragraph" none [] [tn]) ∧
      nodeChildren tn ≠ [] ∧ ∀ c ∈ nodeChildren tn, isTextLeaf c = true) :=
  ⟨rfl,
    claim_C3_amended
      { pageId := "pg",
        blocks := [("pg", ⟨"page", "", "pg-ch", none, []⟩),
                   ("b1", ⟨"paragraph", "pg", "b1-ch", some "t1", []⟩)],
        childrenMap := [("pg-ch", ["b1"]), ("b1-ch", [])],
        textMap := [("t1", [])] }
      [] "b1" [] ⟨"paragraph", "pg", "b1-ch", some "t1", []⟩
      [SlateNode.element (some "b1") "paragraph" none []
        [SlateNode.element none "text" (some "t1") [] [SlateNode.text ""]]]
      [("b1", [0])] rfl rfl rfl (by simp)⟩

/-- C4 counterexample: re-processing an `add` for block id `b1`, which is
already present in the editable tree, inserts a second node carrying the
same block id — a structural change, so add-translation is not
idempotent. -/
theorem claim_C4_counterexample :
    applyBlocksYEvent
      { pageId := "pg",
        blocks := [("pg", ⟨"page", "", "pg-ch", none, []⟩),
                   ("b1", ⟨"paragraph", "pg", "b1-ch", none, []⟩)],
        childrenMap := [("pg-ch", ["b1"]), ("b1-ch", [])],
        textMap := [] }
      [SlateNode.element (some "b1") "paragraph" none [] []]
      ["b1"] [("b1", "add")]
      = Except.ok [SlateNode.element (some "b1") "paragraph" none [] [],
                   SlateNode.element (some "b1") "paragraph" none [] []] ∧
    [SlateNode.element (some "b1") "paragraph" none [] [],
     SlateNode.element (some "b1") "paragraph" none [] []]
      ≠ [SlateNode.element (some "b1") "paragraph" none [] []] := by
  constructor
  · have hsort : sortUpdates [("b1", "add")] = [("b1", "add")] := by
      simp [sortUpdates, List.mergeSort]
    unfold applyBlocksYEvent
    rw [show buildUpdates ["b1"] [("b1", "add")] = [("b1", "add")] from rfl]
    rw [hsort]
    rfl
  · intro h
    have := congrArg List.length h
    simp at this

/-- C4 amended: translation is idempotent for deletions — a batch all of
whose updates are deletes of block ids absent from the editable tree
leaves the tree unchanged — but not for additions, which re-insert a
duplicate node (see the counterexample). -/
theorem claim_C4_amended (root : SharedRoot) (editor : List SlateNode)
    (keysChanged : List String) (keys : List (String × String))
    (hdel : ∀ u ∈ buildUpdates keysChanged keys,
      u.2 = "delete" ∧ findInForest (isBlockElem u.1) editor = none) :
    applyBlocksYEvent root editor keysChanged keys = Except.ok editor := by
  unfold applyBlocksYEvent
  have hfold : (sortUpdates (buildUpdates keysChanged keys)).foldlM (processUpdate root)
      (editor, ([] : KeyPath)) = Except.ok (editor, ([] : KeyPath)) := by
    apply foldlM_processUpdate_id
    intro u hu
    have hmem : u ∈ buildUpdates keysChanged keys :=
      (List.mergeSort_perm (buildUpdates keysChanged keys) updLe).mem_iff.mp hu
    obtain ⟨hd, habs⟩ := hdel u hmem
    exact processUpdate_delete_absent root (editor, ([] : KeyPath)) u hd habs
  rw [hfold]
  rfl

/-- C4 amended witness: deleting an id absent from the editable tree is a
no-op. -/
theorem claim_C4_witness :
    (∀ u ∈ buildUpdates ["z"] [("z", "delete")],
      u.2 = "delete" ∧ findInForest (isBlockElem u.1)
        [SlateNode.element (some "x") "paragraph" none [] []] = none) ∧
    applyBlocksYEvent
      { pageId := "pg", blocks := [], childrenMap := [], textMap := [] }
      [SlateNode.element (some "x") "paragraph" none [] []]
      ["z"] [("z", "delete")]
      = Except.ok [SlateNode.element (some "x") "paragraph" none [] []] :=
  ⟨by
      intro u hu
      simp only [buildUpdates, List.filterMap, List.lookup] at hu
      simp at hu
      subst hu
      exact ⟨rfl, rfl⟩,
    claim_C4_amended
      { pageId := "pg", blocks := [], childrenMap := [], textMap := [] }
      [SlateNode.element (some "x") "paragraph" none [] []]
      ["z"] [("z", "delete")]
      (by
        intro u hu
        simp only [buildUpdates, List.filterMap, List.lookup] at hu
        simp at hu
        subst hu
        exact ⟨rfl, rfl⟩)⟩

/-- C6 counterexample: an `update`-tagged block-map change for `b1`, whose
shared data is `level ↦ 2`, leaves the editable node's data at
`level ↦ 1` — the translator does not refresh the node's data attribute
map (the update branch is a stub). -/
theorem claim_C6_counterexample :
    applyBlocksYEvent
      { pageId := "pg",
        blocks := [("pg", ⟨"page", "", "pg-ch", none, []⟩),
                   ("b1", ⟨"paragraph", "pg", "b1-ch", none, [("level", "2")]⟩)],
        childrenMap := [("pg-ch", ["b1"]), ("b1-ch", [])],
        textMap := [] }
      [SlateNode.element (some "b1") "paragraph" none [("level", "1")] []]
      ["b1"] [("b1", "update")]
      = Except.ok [SlateNode.element (some "b1") "paragraph" none [("level", "1")] []] ∧
    (getBlock "b1"
      { pageId := "pg",
        blocks := [("pg", ⟨"page", "", "pg-ch", none, []⟩),
                   ("b1", ⟨"paragraph", "pg", "b1-ch", none, [("level", "2")]⟩)],
        childrenMap := [("pg-ch", ["b1"]), ("b1-ch", [])],
        textMap := [] }).map YBlock.data = some [("level", "2")] ∧
    [("level", "1")] ≠ [("level", "2")] := by
  refine ⟨?_, rfl, by decide⟩
  have hsort : sortUpdates [("b1", "update")] = [("b1", "update")] := by
    simp [sortUpdates, List.mergeSort]
  unfold applyBlocksYEvent
  rw [show buildUpdates ["b1"] [("b1", "update")] = [("b1", "update")] from rfl]
  rw [hsort]
  rfl

/-- C6 amended: an `update`-tagged block-map change is an unimplemented
stub: a batch all of whose updates carry the `update` action leaves the
editable tree entirely unchanged — in particular it touches neither the
node's children nor its position, and it does not refresh its data; the
data refresh happens only through the separate single-block update
event. -/
theorem claim_C6_amended (root : SharedRoot) (editor : List SlateNode)
    (keysChanged : List String) (keys : List (String × String))
    (hupd : ∀ u ∈ buildUpdates keysChanged keys, u.2 = "update") :
    applyBlocksYEvent root editor keysChanged keys = Except.ok editor := by
  unfold applyBlocksYEvent
  have hfold : (sortUpdates (buildUpdates keysChanged keys)).foldlM (processUpdate root)
      (editor, ([] : KeyPath)) = Except.ok (editor, ([] : KeyPath)) := by
    apply foldlM_processUpdate_id
    intro u hu
    have hmem : u ∈ buildUpdates keysChanged keys :=
      (List.mergeSort_perm (buildUpdates keysChanged keys) updLe).mem_iff.mp hu
    have hd := hupd u hmem
    exact processUpdate_stub root (editor, ([] : KeyPath)) u
      (by rw [hd]; decide) (by rw [hd]; decide)
  rw [hfold]
  rfl

/-- C6 amended witness: a one-element `update` batch is a no-op on a
nonempty editable tree. -/
theorem claim_C6_witness :
    (∀ u ∈ buildUpdates ["b1"] [("b1", "update")], u.2 = "update") ∧
    applyBlocksYEvent
      { pageId := "pg", blocks := [], childrenMap := [], textMap := [] }
      [SlateNode.element (some "b1") "paragraph" none [("level", "1")] []]
      ["b1"] [("b1", "update")]
      = Except.ok [SlateNode.element (some "b1") "paragraph" none [("level", "1")] []] :=
  ⟨by
      intro u hu
      simp only [buildUpdates, List.filterMap, List.lookup] at hu
      simp at hu
      subst hu
      rfl,
    claim_C6_amended
      { pageId := "pg", blocks := [], childrenMap := [], textMap := [] }
      [SlateNode.element (some "b1") "paragraph" none [("level", "1")] []]
      ["b1"] [("b1", "update")]
      (by
        intro u hu
        simp only [buildUpdates, List.filterMap, List.lookup] at hu
        simp at hu
        subst hu
        rfl)⟩

/-- C5 counterexample: deleting the only child of the nested container
`p1` leaves `p1` with zero children and inserts no placeholder — the
source only adds a placeholder when the editor root itself is left empty,
refuting the per-container invariant. -/
theorem claim_C5_counterexample :
    deleteBlockCmd
      (DocNode.mk "pg" BlockType.page
        [DocNode.mk "p1" BlockType.bulletedList
          [DocNode.mk "c1" BlockType.paragraph []]]) "c1"
      = DocNode.mk "pg" BlockType.page [DocNode.mk "p1" BlockType.bulletedList []] ∧
    (deleteBlockCmd
      (DocNode.mk "pg" BlockType.page
        [DocNode.mk "p1" BlockType.bulletedList
          [DocNode.mk "c1" BlockType.paragraph []]]) "c1").childrenOf.map
        DocNode.childrenOf = [[]] :=
  ⟨rfl, rfl⟩

/-- C5 amended: after `deleteBlock`, a placeholder is inserted only when
the editor root has zero children left (the deleted block was the
document's last top-level block); in that case — the remembered parent
being the page itself — the page ends with exactly one child, the default
empty paragraph.  Otherwise the tree is exactly the tree after removal,
with no placeholder for an emptied nested container. -/
theorem claim_C5_amended (page : DocNode) (blockId : String) (p : DocNode)
    (hpar : findParentNode blockId page = some p) :
    ((removeBlockRoot page blockId).childrenOf.length ≠ 0 →
      deleteBlockCmd page blockId = removeBlockRoot page blockId) ∧
    ((removeBlockRoot page blockId).childrenOf.length = 0 → p.idOf = page.idOf →
      (deleteBlockCmd page blockId).childrenOf = [defaultParagraphBlock]) := by
  constructor
  · intro hne
    have hb : ((removeBlockRoot page blockId).childrenOf.length == 0) = false := by
      simp [hne]
    simp only [deleteBlockCmd, hpar, hb, Bool.false_eq_true, if_false]
  · intro hz hid
    have hb : ((removeBlockRoot page blockId).childrenOf.length == 0) = true := by
      simp [hz]
    simp only [deleteBlockCmd, hpar, hb, if_true]
    cases page with
    | mk i t cs =>
      simp only [removeBlockRoot] at hz ⊢
      simp only [DocNode.childrenOf] at hz
      have hnil : removeBlockForest blockId cs = [] := List.length_eq_zero.mp hz
      rw [hnil]
      simp only [addBlockUnderNode]
      rw [if_pos (show (i == p.idOf) = true from beq_iff_eq.mpr hid.symm)]
      rfl

/-- C5 amended witness: deleting the page's only block leaves the page
with exactly one default empty paragraph child. -/
theorem claim_C5_witness :
    findParentNode "b1"
      (DocNode.mk "pg" BlockType.page [DocNode.mk "b1" BlockType.paragraph []])
      = some (DocNode.mk "pg" BlockType.page
        [DocNode.mk "b1" BlockType.paragraph []]) ∧
    (deleteBlockCmd
      (DocNode.mk "pg" BlockType.page [DocNode.mk "b1" BlockType.paragraph []])
      "b1").childrenOf = [defaultParagraphBlock] :=
  ⟨rfl,
    (claim_C5_amended
      (DocNode.mk "pg" BlockType.page [DocNode.mk "b1" BlockType.paragraph []])
      "b1"
      (DocNode.mk "pg" BlockType.page [DocNode.mk "b1" BlockType.paragraph []])
      rfl).2 rfl rfl⟩

end AppFlowyWeb
